import Mathlib

/-!
Verification of the load-test generator (`main.go`).

The embedding models:

* `Result` / `Report` — the two data structures of `main.go`.  `time.Duration`
  values are nanosecond counts.  All durations in this program come from
  `time.Since` under Go's monotonic clock, hence are non-negative, so they are
  modelled as `Nat`.  The Go `error` field is only ever tested for nil-ness, so
  it is modelled as a `Bool` flag.  Go `int` status codes are `Int`.
* the collector loop of `runLoadTest` (lines 110–129) — a left fold of
  `stepAgg` over the list of collected results, followed by the average
  computation guarded by `totalRequests - FailedRequests > 0` (lines 132–134).
  The Go map `StatusCodes` is an association list with unique keys;
  `incrCount` is `report.StatusCodes[code]++`.
* the worker body (lines 79–93) — `performRequest`, a total function of the
  outcome of the `http.Get` exchange.
* the goroutine / semaphore machinery (lines 63–100) — a transition system
  `LTStep` over per-unit phases.  `semaphore <- struct{}{}` on a channel of
  capacity `concurrency` blocks exactly while `concurrency` units hold a slot,
  so the `acquire` step is enabled only when the active population is below
  `concurrency`.  A unit's single send on `resultChan` (buffered to
  `totalRequests`, hence never blocking) happens when it completes, so the
  `finish` step increments the collected count by one.
* the flag validation of `main` (lines 30–60) — `mainExitCode` / `mainModel`.

Wall-clock quantities (`TotalDuration`, the timestamps) are outside the
embedding and carried as the constant 0.
-/

namespace LoadGen

/-- `time.Duration`, in nanoseconds. -/
abbrev Duration := Nat

/-- `time.Hour` in nanoseconds: the initial value of `Report.MinTime`. -/
def hourNs : Duration := 3600000000000

/-- `type Result struct`: outcome of one HTTP request.  `hasError` models
`Error != nil`; when an error occurs `StatusCode` keeps its zero value. -/
structure Result where
  statusCode : Int
  duration : Duration
  hasError : Bool
deriving DecidableEq, Repr

/-- `type Report struct`.  `totalDuration` is wall-clock and not modelled. -/
structure Report where
  totalRequests : Nat
  totalDuration : Duration
  statusCodes : List (Int × Nat)
  successfulRequests : Nat
  failedRequests : Nat
  averageTime : Duration
  minTime : Duration
  maxTime : Duration
deriving DecidableEq, Repr

/-- `report.StatusCodes[code]++` on the Go map, as an association list:
increment the entry for `code`, inserting it at count 1 when absent. -/
def incrCount : List (Int × Nat) → Int → List (Int × Nat)
  | [], code => [(code, 1)]
  | (c, n) :: rest, code =>
      if c = code then (c, n + 1) :: rest else (c, n) :: incrCount rest code

/-- Total count recorded for `code` (the Go map lookup, 0 when absent). -/
def lookupC (m : List (Int × Nat)) (code : Int) : Nat :=
  ((m.filter fun e => e.1 == code).map fun e => e.2).sum

/-- Sum of the recorded counts over all status codes other than 200. -/
def sumExcept200 (m : List (Int × Nat)) : Nat :=
  ((m.filter fun e => e.1 != 200).map fun e => e.2).sum

/-- The mutable state of the collector loop: the report counters it writes
plus the local `totalTime` accumulator. -/
structure AggState where
  statusCodes : List (Int × Nat)
  successfulRequests : Nat
  failedRequests : Nat
  minTime : Duration
  maxTime : Duration
  totalTime : Duration
deriving DecidableEq, Repr

/-- The collector state before the loop: `Report{TotalRequests: ...,
StatusCodes: make(map[int]int), MinTime: time.Hour}` plus `totalTime = 0`. -/
def initAgg : AggState :=
  { statusCodes := []
    successfulRequests := 0
    failedRequests := 0
    minTime := hourNs
    maxTime := 0
    totalTime := 0 }

/-- One iteration of `for result := range resultChan` (lines 110–129):
errors only bump `FailedRequests`; otherwise the status-code map, the
running total, the 200-counter and the running min/max are updated. -/
def stepAgg (st : AggState) (r : Result) : AggState :=
  if r.hasError then
    { st with failedRequests := st.failedRequests + 1 }
  else
    { st with
      statusCodes := incrCount st.statusCodes r.statusCode
      totalTime := st.totalTime + r.duration
      successfulRequests :=
        if r.statusCode = 200 then st.successfulRequests + 1
        else st.successfulRequests
      minTime := if r.duration < st.minTime then r.duration else st.minTime
      maxTime := if st.maxTime < r.duration then r.duration else st.maxTime }

/-- `runLoadTest`, restricted to its sequential reduction phase: the report
built from the list of results read off `resultChan`, in arrival order.
`AverageTime` is set only under the guard
`totalRequests - report.FailedRequests > 0` (lines 132–134). -/
def runLoadTest (totalRequests : Nat) (results : List Result) : Report :=
  let fin := results.foldl stepAgg initAgg
  { totalRequests := totalRequests
    totalDuration := 0
    statusCodes := fin.statusCodes
    successfulRequests := fin.successfulRequests
    failedRequests := fin.failedRequests
    averageTime :=
      if 0 < totalRequests - fin.failedRequests then
        fin.totalTime / (totalRequests - fin.failedRequests)
      else 0
    minTime := fin.minTime
    maxTime := fin.maxTime }

/-- The worker body (lines 79–93) as a function of the outcome of the
`http.Get` exchange: on error the result carries the error flag and the zero
status code; on success it carries the status code as returned.  Totality of
this function is the guarantee that every invocation yields exactly one
result and no failure escapes. -/
def performRequest (resp : Except String Int) (duration : Duration) : Result :=
  match resp with
  | .error _ => { statusCode := 0, duration := duration, hasError := true }
  | .ok code => { statusCode := code, duration := duration, hasError := false }

/-- The validation chain of `main` (lines 37–51): exit code 1 on a missing
URL, a non-positive request count, or a concurrency bound outside
`(0, requests]`; a run that passes validation exits 0. -/
def mainExitCode (url : String) (requests concurrency : Int) : Nat :=
  if url = "" then 1
  else if requests ≤ 0 then 1
  else if concurrency ≤ 0 ∨ concurrency > requests then 1
  else 0

/-- `main` as a whole: `none` when validation fails (no request dispatched),
otherwise the report of the run over whatever results the workers produce. -/
def mainModel (url : String) (requests concurrency : Int)
    (results : List Result) : Option Report :=
  if url = "" then none
  else if requests ≤ 0 then none
  else if concurrency ≤ 0 ∨ concurrency > requests then none
  else some (runLoadTest requests.toNat results)

/-- Phase of one logical request unit (one loop iteration's goroutine):
not yet holding a semaphore slot, holding a slot (executing the HTTP call),
or finished (result sent, slot released). -/
inductive Phase where
  | pending
  | active
  | done
deriving DecidableEq, Repr

/-- State of a run: the phase of each of the `totalRequests` units and the
number of results delivered to `resultChan`. -/
structure LTState where
  phases : List Phase
  collected : Nat
deriving DecidableEq, Repr

/-- Number of units currently holding a semaphore slot. -/
def activeCount (s : LTState) : Nat := s.phases.count Phase.active

/-- Number of units that have completed. -/
def doneCount (s : LTState) : Nat := s.phases.count Phase.done

/-- Start of `runLoadTest`: all `totalRequests` units spawned and pending,
nothing collected. -/
def initState (totalRequests : Nat) : LTState :=
  ⟨List.replicate totalRequests Phase.pending, 0⟩

/-- The transitions of the run.  `acquire` models `semaphore <- struct{}{}`:
a pending unit obtains a slot, possible only while fewer than `concurrency`
slots are held (the channel has capacity `concurrency`).  `finish` models the
completion of a unit: its single send of one result on `resultChan`
(buffered, never blocking) together with the deferred slot release. -/
inductive LTStep (concurrency : Nat) : LTState → LTState → Prop where
  | acquire (s : LTState) (i : Nat) (hi : i < s.phases.length)
      (hp : s.phases.get ⟨i, hi⟩ = Phase.pending)
      (hc : activeCount s < concurrency) :
      LTStep concurrency s ⟨s.phases.set i Phase.active, s.collected⟩
  | finish (s : LTState) (i : Nat) (hi : i < s.phases.length)
      (hp : s.phases.get ⟨i, hi⟩ = Phase.active) :
      LTStep concurrency s ⟨s.phases.set i Phase.done, s.collected + 1⟩

/-- States reachable during a run with the given bounds. -/
def Reachable (concurrency totalRequests : Nat) (s : LTState) : Prop :=
  Relation.ReflTransGen (LTStep concurrency) (initState totalRequests) s

/-! ### Characterization of the collector fold -/

lemma ite_lt_eq_min (d m : Nat) : (if d < m then d else m) = min m d := by
  rw [Nat.min_def]
  split <;> split <;> omega

lemma ite_lt_eq_max (d m : Nat) : (if m < d then d else m) = max m d := by
  rw [Nat.max_def]
  split <;> split <;> omega

lemma agg_failed (rs : List Result) (st : AggState) :
    (rs.foldl stepAgg st).failedRequests
      = st.failedRequests + rs.countP (fun r => r.hasError) := by
  induction rs generalizing st with
  | nil => simp
  | cons r rs ih =>
      rcases hr : r.hasError with _ | _ <;>
        simp [List.countP_cons, ih, stepAgg, hr] <;> omega

lemma agg_success (rs : List Result) (st : AggState) :
    (rs.foldl stepAgg st).successfulRequests
      = st.successfulRequests
        + rs.countP (fun r => !r.hasError && r.statusCode == 200) := by
  induction rs generalizing st with
  | nil => simp
  | cons r rs ih =>
      rcases hr : r.hasError with _ | _ <;>
        by_cases h2 : r.statusCode = 200 <;>
          simp [List.countP_cons, ih, stepAgg, hr, h2] <;> omega

lemma agg_total (rs : List Result) (st : AggState) :
    (rs.foldl stepAgg st).totalTime
      = st.totalTime
        + ((rs.filter fun r => !r.hasError).map Result.duration).sum := by
  induction rs generalizing st with
  | nil => simp
  | cons r rs ih =>
      rcases hr : r.hasError with _ | _ <;>
        simp [List.filter_cons, ih, stepAgg, hr, Nat.add_assoc]

lemma agg_min (rs : List Result) (st : AggState) :
    (rs.foldl stepAgg st).minTime
      = ((rs.filter fun r => !r.hasError).map Result.duration).foldl
          min st.minTime := by
  induction rs generalizing st with
  | nil => simp
  | cons r rs ih =>
      rcases hr : r.hasError with _ | _ <;>
        simp [List.filter_cons, ih, stepAgg, hr, ite_lt_eq_min]

lemma agg_max (rs : List Result) (st : AggState) :
    (rs.foldl stepAgg st).maxTime
      = ((rs.filter fun r => !r.hasError).map Result.duration).foldl
          max st.maxTime := by
  induction rs generalizing st with
  | nil => simp
  | cons r rs ih =>
      rcases hr : r.hasError with _ | _ <;>
        simp [List.filter_cons, ih, stepAgg, hr, ite_lt_eq_max]

lemma lookupC_cons (k : Int) (n : Nat) (rest : List (Int × Nat)) (c : Int) :
    lookupC ((k, n) :: rest) c
      = (if k = c then n else 0) + lookupC rest c := by
  by_cases h : k = c <;> simp [lookupC, List.filter_cons, h]

lemma sumExcept200_cons (k : Int) (n : Nat) (rest : List (Int × Nat)) :
    sumExcept200 ((k, n) :: rest)
      = (if k = 200 then 0 else n) + sumExcept200 rest := by
  by_cases h : k = 200 <;> simp [sumExcept200, List.filter_cons, h]

lemma lookupC_incrCount (m : List (Int × Nat)) (code c : Int) :
    lookupC (incrCount m code) c
      = lookupC m c + (if code = c then 1 else 0) := by
  induction m with
  | nil =>
      by_cases h : code = c <;>
        simp [incrCount, lookupC_cons, lookupC, h]
  | cons e rest ih =>
      obtain ⟨k, n⟩ := e
      by_cases hk : k = code
      · subst hk
        by_cases hc : k = c <;>
          simp [incrCount, lookupC_cons, hc] <;> omega
      · simp only [incrCount, if_neg hk, lookupC_cons, ih]
        omega

lemma sumExcept200_incrCount (m : List (Int × Nat)) (code : Int) :
    sumExcept200 (incrCount m code)
      = sumExcept200 m + (if code = 200 then 0 else 1) := by
  induction m with
  | nil =>
      by_cases h : code = 200 <;>
        simp [incrCount, sumExcept200_cons, sumExcept200, h]
  | cons e rest ih =>
      obtain ⟨k, n⟩ := e
      by_cases hk : k = code
      · subst hk
        by_cases hc : k = 200 <;>
          simp [incrCount, sumExcept200_cons, hc] <;> omega
      · simp only [incrCount, if_neg hk, sumExcept200_cons, ih]
        omega

lemma agg_lookup (rs : List Result) (st : AggState) (c : Int) :
    lookupC (rs.foldl stepAgg st).statusCodes c
      = lookupC st.statusCodes c
        + rs.countP (fun r => !r.hasError && r.statusCode == c) := by
  induction rs generalizing st with
  | nil => simp
  | cons r rs ih =>
      rcases hr : r.hasError with _ | _
      · by_cases hc : r.statusCode = c <;>
          simp [List.countP_cons, ih, stepAgg, hr, hc, lookupC_incrCount] <;>
            omega
      · simp [List.countP_cons, ih, stepAgg, hr]

lemma agg_sumExcept (rs : List Result) (st : AggState) :
    sumExcept200 (rs.foldl stepAgg st).statusCodes
      = sumExcept200 st.statusCodes
        + rs.countP (fun r => !r.hasError && r.statusCode != 200) := by
  induction rs generalizing st with
  | nil => simp
  | cons r rs ih =>
      rcases hr : r.hasError with _ | _
      · by_cases hc : r.statusCode = 200 <;>
          simp [List.countP_cons, ih, stepAgg, hr, hc,
            sumExcept200_incrCount] <;> omega
      · simp [List.countP_cons, ih, stepAgg, hr]

lemma agg_all_errors (rs : List Result) (st : AggState)
    (h : ∀ r ∈ rs, r.hasError = true) :
    rs.foldl stepAgg st
      = { st with failedRequests := st.failedRequests + rs.length } := by
  induction rs generalizing st with
  | nil => simp
  | cons r rs ih =>
      have hr : r.hasError = true := h r (by simp)
      have hrest : ∀ x ∈ rs, x.hasError = true := fun x hx => h x (by simp [hx])
      simp only [List.foldl_cons, stepAgg, hr, if_pos]
      rw [ih _ hrest]
      simp only [List.length_cons, AggState.mk.injEq, and_true, true_and]
      omega

/-! ### Arithmetic facts about running folds of `min` / `max` and sums -/

lemma foldl_min_le_init (l : List Nat) (a : Nat) : l.foldl min a ≤ a := by
  induction l generalizing a with
  | nil => exact Nat.le_refl a
  | cons x xs ih =>
      exact Nat.le_trans (ih (min a x)) (Nat.min_le_left a x)

lemma foldl_min_le_mem (l : List Nat) (a d : Nat) (hd : d ∈ l) :
    l.foldl min a ≤ d := by
  induction l generalizing a with
  | nil => cases hd
  | cons x xs ih =>
      rcases List.mem_cons.mp hd with h | h
      · subst h
        exact Nat.le_trans (foldl_min_le_init xs (min a d)) (Nat.min_le_right a d)
      · exact ih (min a x) h

lemma init_le_foldl_max (l : List Nat) (a : Nat) : a ≤ l.foldl max a := by
  induction l generalizing a with
  | nil => exact Nat.le_refl a
  | cons x xs ih =>
      exact Nat.le_trans (Nat.le_max_left a x) (ih (max a x))

lemma mem_le_foldl_max (l : List Nat) (a d : Nat) (hd : d ∈ l) :
    d ≤ l.foldl max a := by
  induction l generalizing a with
  | nil => cases hd
  | cons x xs ih =>
      rcases List.mem_cons.mp hd with h | h
      · subst h
        exact Nat.le_trans (Nat.le_max_right a d) (init_le_foldl_max xs (max a d))
      · exact ih (max a x) h

lemma length_mul_le_sum (l : List Nat) (m : Nat) (h : ∀ d ∈ l, m ≤ d) :
    l.length * m ≤ l.sum := by
  induction l with
  | nil => simp
  | cons x xs ih =>
      have hx : m ≤ x := h x (by simp)
      have hxs : xs.length * m ≤ xs.sum := ih fun d hd => h d (by simp [hd])
      simp only [List.length_cons, List.sum_cons, Nat.succ_mul]
      omega

lemma sum_le_length_mul (l : List Nat) (M : Nat) (h : ∀ d ∈ l, d ≤ M) :
    l.sum ≤ l.length * M := by
  induction l with
  | nil => simp
  | cons x xs ih =>
      have hx : x ≤ M := h x (by simp)
      have hxs : xs.sum ≤ xs.length * M := ih fun d hd => h d (by simp [hd])
      simp only [List.length_cons, List.sum_cons, Nat.succ_mul]
      omega

lemma foldl_min_shift (l : List Nat) (a x : Nat) :
    l.foldl min (min a x) = min a (l.foldl min x) := by
  induction l generalizing x with
  | nil => rfl
  | cons y ys ih =>
      show ys.foldl min (min (min a x) y) = min a ((y :: ys).foldl min x)
      rw [Nat.min_assoc, ih (min x y)]
      rfl

lemma foldl_min_eq_min? (l : List Nat) (a : Nat) :
    l.foldl min a
      = match l.min? with
        | none => a
        | some m => min a m := by
  cases l with
  | nil => rfl
  | cons x xs =>
      show (x :: xs).foldl min a = min a (xs.foldl min x)
      exact foldl_min_shift xs a x

/-! ### Counting partitions of the result list -/

lemma countP_partition (rs : List Result) :
    rs.countP (fun r => !r.hasError && r.statusCode == 200)
      + rs.countP (fun r => !r.hasError && r.statusCode != 200)
      + rs.countP (fun r => r.hasError) = rs.length := by
  induction rs with
  | nil => simp
  | cons r rs ih =>
      rcases hr : r.hasError with _ | _ <;>
        by_cases h2 : r.statusCode = 200 <;>
          simp [List.countP_cons, hr, h2] <;> omega

lemma countP_err_add_nonErr (rs : List Result) :
    rs.countP (fun r => r.hasError)
      + (rs.filter fun r => !r.hasError).length = rs.length := by
  induction rs with
  | nil => simp
  | cons r rs ih =>
      rcases hr : r.hasError with _ | _ <;>
        simp [List.countP_cons, List.filter_cons, hr] <;> omega

/-! ### Invariants of the dispatch/collection transition system -/

lemma count_set_phase (l : List Phase) (i : Nat) (hi : i < l.length)
    (b v : Phase) :
    (l.set i b).count v + (if l.get ⟨i, hi⟩ = v then 1 else 0)
      = l.count v + (if b = v then 1 else 0) := by
  induction l generalizing i with
  | nil => simp at hi
  | cons x xs ih =>
      cases i with
      | zero =>
          simp only [List.set_cons_zero, List.count_cons, List.get]
          by_cases hx : x = v <;> by_cases hb : b = v <;>
            simp [hx, hb] <;> omega
      | succ n =>
          have hn : n < xs.length := by simpa using hi
          simp only [List.set_cons_succ, List.count_cons, List.get]
          have hrec := ih n hn
          simp only [List.get_eq_getElem] at hrec ⊢
          by_cases hx : x = v <;> simp [hx] <;> omega

lemma reachable_length (c total : Nat) (s : LTState)
    (hs : Reachable c total s) : s.phases.length = total := by
  induction hs with
  | refl => simp [initState]
  | tail _ hstep ih =>
      cases hstep with
      | acquire i hi hp hc => simpa using ih
      | finish i hi hp => simpa using ih

lemma reachable_collected_eq_done (c total : Nat) (s : LTState)
    (hs : Reachable c total s) : s.collected = doneCount s := by
  induction hs with
  | refl => simp [initState, doneCount, List.count_replicate]
  | tail _ hstep ih =>
      cases hstep with
      | acquire i hi hp hc =>
          have hcnt := count_set_phase _ i hi Phase.active Phase.done
          rw [hp] at hcnt
          simp only [doneCount] at ih ⊢
          simp at hcnt
          omega
      | finish i hi hp =>
          have hcnt := count_set_phase _ i hi Phase.done Phase.done
          rw [hp] at hcnt
          simp only [doneCount] at ih ⊢
          simp at hcnt
          omega

lemma reachable_active_le (c total : Nat) (s : LTState)
    (hs : Reachable c total s) : activeCount s ≤ c := by
  induction hs with
  | refl => simp [initState, activeCount, List.count_replicate]
  | tail _ hstep ih =>
      cases hstep with
      | acquire i hi hp hc =>
          have hcnt := count_set_phase _ i hi Phase.active Phase.active
          rw [hp] at hcnt
          simp only [activeCount] at ih hc ⊢
          simp at hcnt
          omega
      | finish i hi hp =>
          have hcnt := count_set_phase _ i hi Phase.done Phase.active
          rw [hp] at hcnt
          simp only [activeCount] at ih ⊢
          simp at hcnt
          omega

/-! ### The fields of the report produced by `runLoadTest` -/

lemma runLoadTest_failed (total : Nat) (rs : List Result) :
    (runLoadTest total rs).failedRequests
      = rs.countP (fun r => r.hasError) := by
  simpa [runLoadTest, initAgg] using agg_failed rs initAgg

lemma runLoadTest_success (total : Nat) (rs : List Result) :
    (runLoadTest total rs).successfulRequests
      = rs.countP (fun r => !r.hasError && r.statusCode == 200) := by
  simpa [runLoadTest, initAgg] using agg_success rs initAgg

lemma runLoadTest_lookup (total : Nat) (rs : List Result) (c : Int) :
    lookupC (runLoadTest total rs).statusCodes c
      = rs.countP (fun r => !r.hasError && r.statusCode == c) := by
  simpa [runLoadTest, initAgg, lookupC] using agg_lookup rs initAgg c

lemma runLoadTest_sumExcept (total : Nat) (rs : List Result) :
    sumExcept200 (runLoadTest total rs).statusCodes
      = rs.countP (fun r => !r.hasError && r.statusCode != 200) := by
  simpa [runLoadTest, initAgg, sumExcept200] using agg_sumExcept rs initAgg

lemma runLoadTest_minTime (total : Nat) (rs : List Result) :
    (runLoadTest total rs).minTime
      = ((rs.filter fun r => !r.hasError).map Result.duration).foldl
          min hourNs := by
  simpa [runLoadTest, initAgg] using agg_min rs initAgg

lemma runLoadTest_maxTime (total : Nat) (rs : List Result) :
    (runLoadTest total rs).maxTime
      = ((rs.filter fun r => !r.hasError).map Result.duration).foldl
          max 0 := by
  simpa [runLoadTest, initAgg] using agg_max rs initAgg

lemma runLoadTest_avgTime (rs : List Result) :
    (runLoadTest rs.length rs).averageTime
      = if 0 < (rs.filter fun r => !r.hasError).length then
          ((rs.filter fun r => !r.hasError).map Result.duration).sum
            / (rs.filter fun r => !r.hasError).length
        else 0 := by
  have hf := runLoadTest_failed rs.length rs
  have hpar := countP_err_add_nonErr rs
  have hsub : rs.length - (runLoadTest rs.length rs).failedRequests
      = (rs.filter fun r => !r.hasError).length := by omega
  have ht := agg_total rs initAgg
  simp only [runLoadTest, initAgg, Nat.zero_add] at hsub ht ⊢
  rw [hsub, ht]

/-! ### Claim theorems -/

/-- C1: for every run with valid inputs (`0 < totalRequests`,
`0 < concurrency ≤ totalRequests`), when every logical request unit has
completed, the collector has received exactly `totalRequests` outcomes: each
unit delivered exactly one outcome and none was lost, duplicated or left
uncollected, at any concurrency level. -/
theorem all_outcomes_collected (totalRequests concurrency : Nat)
    (htotal : 0 < totalRequests) (hc0 : 0 < concurrency)
    (hctot : concurrency ≤ totalRequests) (s : LTState)
    (hs : Reachable concurrency totalRequests s)
    (hdone : ∀ p ∈ s.phases, p = Phase.done) :
    s.collected = totalRequests := by
  have h1 := reachable_collected_eq_done concurrency totalRequests s hs
  have h2 := reachable_length concurrency totalRequests s hs
  have h3 : doneCount s = s.phases.length :=
    List.count_eq_length.mpr fun p hp => (hdone p hp).symm
  omega

theorem all_outcomes_collected_witness :
    (⟨[Phase.done], 1⟩ : LTState).collected = 1 := by
  have step1 : LTStep 1 (initState 1) ⟨[Phase.active], 0⟩ :=
    LTStep.acquire (initState 1) 0 (by decide) (by decide) (by decide)
  have step2 : LTStep 1 ⟨[Phase.active], 0⟩ ⟨[Phase.done], 1⟩ :=
    LTStep.finish ⟨[Phase.active], 0⟩ 0 (by decide) (by decide)
  have hreach : Reachable 1 1 ⟨[Phase.done], 1⟩ :=
    Relation.ReflTransGen.tail
      (Relation.ReflTransGen.tail Relation.ReflTransGen.refl step1) step2
  exact all_outcomes_collected 1 1 (by decide) (by decide) (by decide)
    _ hreach (by decide)

/-- C2: in every state reachable during a run, at most `concurrency` request
units hold an admission slot (execute the HTTP call) at once; a unit beyond
the budget can only move out of `pending` through the guarded `acquire`
step, i.e. it waits for a slot before its timed request begins. -/
theorem admission_bound (concurrency totalRequests : Nat) (s : LTState)
    (hs : Reachable concurrency totalRequests s) :
    activeCount s ≤ concurrency :=
  reachable_active_le concurrency totalRequests s hs

theorem admission_bound_witness : activeCount (initState 3) ≤ 2 :=
  admission_bound 2 3 (initState 3) Relation.ReflTransGen.refl

/-- C3: the reduction of any finite list of collected outcomes yields a
report where `failedRequests` counts exactly the error outcomes,
`statusCodes` records for each code exactly the non-error outcomes carrying
it, `successfulRequests` counts exactly the non-error outcomes with status
code 200, and the non-error durations are folded into the running
min / max / sum (errors contribute to none of these). -/
theorem reduction_fields (totalRequests : Nat) (rs : List Result) :
    (runLoadTest totalRequests rs).failedRequests
        = rs.countP (fun r => r.hasError)
    ∧ (runLoadTest totalRequests rs).successfulRequests
        = rs.countP (fun r => !r.hasError && r.statusCode == 200)
    ∧ (∀ c : Int, lookupC (runLoadTest totalRequests rs).statusCodes c
        = rs.countP (fun r => !r.hasError && r.statusCode == c))
    ∧ (rs.foldl stepAgg initAgg).totalTime
        = ((rs.filter fun r => !r.hasError).map Result.duration).sum
    ∧ (runLoadTest totalRequests rs).minTime
        = ((rs.filter fun r => !r.hasError).map Result.duration).foldl
            min hourNs
    ∧ (runLoadTest totalRequests rs).maxTime
        = ((rs.filter fun r => !r.hasError).map Result.duration).foldl
            max 0 :=
  ⟨runLoadTest_failed totalRequests rs,
   runLoadTest_success totalRequests rs,
   runLoadTest_lookup totalRequests rs,
   by simpa [initAgg] using agg_total rs initAgg,
   runLoadTest_minTime totalRequests rs,
   runLoadTest_maxTime totalRequests rs⟩

/-- C4: when each of the `totalRequests` logical requests yields exactly one
collected outcome, the report satisfies
`successfulRequests + (sum of statusCodes counts for codes ≠ 200)
 + failedRequests = totalRequests`. -/
theorem report_count_invariant (totalRequests : Nat) (rs : List Result)
    (hlen : rs.length = totalRequests) :
    (runLoadTest totalRequests rs).successfulRequests
      + sumExcept200 (runLoadTest totalRequests rs).statusCodes
      + (runLoadTest totalRequests rs).failedRequests = totalRequests := by
  have h1 := runLoadTest_success totalRequests rs
  have h2 := runLoadTest_sumExcept totalRequests rs
  have h3 := runLoadTest_failed totalRequests rs
  have h4 := countP_partition rs
  omega

theorem report_count_invariant_witness :
    (runLoadTest 2 [⟨200, 10, false⟩, ⟨0, 0, true⟩]).successfulRequests
      + sumExcept200 (runLoadTest 2 [⟨200, 10, false⟩, ⟨0, 0, true⟩]).statusCodes
      + (runLoadTest 2 [⟨200, 10, false⟩, ⟨0, 0, true⟩]).failedRequests = 2 :=
  report_count_invariant 2 [⟨200, 10, false⟩, ⟨0, 0, true⟩] (by decide)

/-- C5: over the collected outcomes of a run, when at least one non-error
outcome exists the average is the sum of the non-error durations divided by
the count of non-error outcomes; when none exists the average keeps its zero
default and the division branch is never taken. -/
theorem average_duration_spec (rs : List Result) :
    (0 < (rs.filter fun r => !r.hasError).length →
      (runLoadTest rs.length rs).averageTime
        = ((rs.filter fun r => !r.hasError).map Result.duration).sum
            / (rs.filter fun r => !r.hasError).length)
    ∧ ((rs.filter fun r => !r.hasError).length = 0 →
      (runLoadTest rs.length rs).averageTime = 0) := by
  have h := runLoadTest_avgTime rs
  constructor
  · intro hpos
    rw [h, if_pos hpos]
  · intro h0
    rw [h, if_neg (by omega)]

theorem average_duration_spec_witness :
    (runLoadTest ([⟨200, 10, false⟩, ⟨500, 20, false⟩] : List Result).length
        [⟨200, 10, false⟩, ⟨500, 20, false⟩]).averageTime = 15 := by
  rw [(average_duration_spec [⟨200, 10, false⟩, ⟨500, 20, false⟩]).1 (by decide)]
  decide

/-- C6: on a run where every request fails (`failedRequests = totalRequests`
with all outcomes collected), the average and max stay at their zero
defaults, the min stays at its initialization value `time.Hour`, no division
is evaluated (the guard is false), and the status-code map is empty. -/
theorem all_failed_defaults (totalRequests : Nat) (rs : List Result)
    (hlen : rs.length = totalRequests)
    (hfail : (runLoadTest totalRequests rs).failedRequests = totalRequests) :
    (runLoadTest totalRequests rs).averageTime = 0
    ∧ (runLoadTest totalRequests rs).minTime = hourNs
    ∧ (runLoadTest totalRequests rs).maxTime = 0
    ∧ (runLoadTest totalRequests rs).statusCodes = [] := by
  have hf := runLoadTest_failed totalRequests rs
  have hle := rs.countP_le_length (fun r => r.hasError)
  have hcnt : rs.countP (fun r => r.hasError) = rs.length := by omega
  have hall : ∀ r ∈ rs, r.hasError = true := List.countP_eq_length.mp hcnt
  have hagg := agg_all_errors rs initAgg hall
  simp only [initAgg] at hagg
  refine ⟨?_, ?_, ?_, ?_⟩ <;>
    simp [runLoadTest, initAgg, hagg, hlen.symm]

theorem all_failed_defaults_witness :
    (runLoadTest 1 [⟨0, 5, true⟩]).averageTime = 0
    ∧ (runLoadTest 1 [⟨0, 5, true⟩]).minTime = hourNs
    ∧ (runLoadTest 1 [⟨0, 5, true⟩]).maxTime = 0
    ∧ (runLoadTest 1 [⟨0, 5, true⟩]).statusCodes = [] :=
  all_failed_defaults 1 [⟨0, 5, true⟩] (by decide) (by decide)

/-- C7: whenever the collected outcomes of a run contain at least one
non-error outcome, the finalized report satisfies
`minTime ≤ averageTime` and `averageTime ≤ maxTime`. -/
theorem min_le_avg_le_max (rs : List Result)
    (hpos : 0 < (rs.filter fun r => !r.hasError).length) :
    (runLoadTest rs.length rs).minTime
        ≤ (runLoadTest rs.length rs).averageTime
    ∧ (runLoadTest rs.length rs).averageTime
        ≤ (runLoadTest rs.length rs).maxTime := by
  have havg := runLoadTest_avgTime rs
  rw [if_pos hpos] at havg
  have hlenmap : ((rs.filter fun r => !r.hasError).map Result.duration).length
      = (rs.filter fun r => !r.hasError).length := List.length_map _ _
  constructor
  · rw [havg, runLoadTest_minTime, Nat.le_div_iff_mul_le hpos, Nat.mul_comm]
    have hsum := length_mul_le_sum
      ((rs.filter fun r => !r.hasError).map Result.duration)
      (((rs.filter fun r => !r.hasError).map Result.duration).foldl min hourNs)
      (fun d hd => foldl_min_le_mem _ hourNs d hd)
    rw [hlenmap] at hsum
    exact hsum
  · rw [havg, runLoadTest_maxTime]
    have hsum := sum_le_length_mul
      ((rs.filter fun r => !r.hasError).map Result.duration)
      (((rs.filter fun r => !r.hasError).map Result.duration).foldl max 0)
      (fun d hd => mem_le_foldl_max _ 0 d hd)
    rw [hlenmap] at hsum
    calc ((rs.filter fun r => !r.hasError).map Result.duration).sum
          / (rs.filter fun r => !r.hasError).length
        ≤ (rs.filter fun r => !r.hasError).length
            * ((rs.filter fun r => !r.hasError).map Result.duration).foldl max 0
            / (rs.filter fun r => !r.hasError).length := by
          exact Nat.div_le_div_right (by omega)
      _ = ((rs.filter fun r => !r.hasError).map Result.duration).foldl
            max 0 := Nat.mul_div_cancel_left _ hpos

theorem min_le_avg_le_max_witness :
    (runLoadTest ([⟨200, 10, false⟩] : List Result).length
        [⟨200, 10, false⟩]).minTime
      ≤ (runLoadTest ([⟨200, 10, false⟩] : List Result).length
          [⟨200, 10, false⟩]).averageTime
    ∧ (runLoadTest ([⟨200, 10, false⟩] : List Result).length
        [⟨200, 10, false⟩]).averageTime
      ≤ (runLoadTest ([⟨200, 10, false⟩] : List Result).length
          [⟨200, 10, false⟩]).maxTime :=
  min_le_avg_le_max [⟨200, 10, false⟩] (by decide)

/-- C8: every invocation of the worker yields exactly one result
(`performRequest` is a total function of the exchange outcome): with no
error flag the result carries the status code exactly as returned, whatever
its value, and on any failure of the exchange the result carries the error
flag; no failure propagates out of the worker. -/
theorem worker_outcome (resp : Except String Int) (d : Duration) :
    ((performRequest resp d).hasError = false →
      ∃ code, resp = Except.ok code
        ∧ (performRequest resp d).statusCode = code
        ∧ (performRequest resp d).duration = d)
    ∧ (∀ e, resp = Except.error e → (performRequest resp d).hasError = true
        ∧ (performRequest resp d).duration = d) := by
  cases resp <;> simp [performRequest]

theorem worker_outcome_witness :
    (performRequest (Except.error "connection refused") 5).hasError = true :=
  ((worker_outcome (Except.error "connection refused") 5).2
    "connection refused" rfl).1

/-- C9: the program exits with code 1 — without dispatching any request —
exactly when the URL is absent, `requests ≤ 0`, `concurrency ≤ 0` or
`concurrency > requests`; otherwise the run happens and the exit code is 0
whatever the individual request outcomes are. -/
theorem validation_gate (u : String) (r c : Int) (results : List Result) :
    (mainExitCode u r c = 1 ∨ mainExitCode u r c = 0)
    ∧ (mainExitCode u r c = 1 ↔ mainModel u r c results = none)
    ∧ (mainExitCode u r c = 1 ↔ (u = "" ∨ r ≤ 0 ∨ c ≤ 0 ∨ r < c)) := by
  by_cases h1 : u = "" <;> by_cases h2 : r ≤ 0 <;>
    by_cases h3 : c ≤ 0 ∨ c > r <;>
      simp [mainExitCode, mainModel, h1, h2, h3] <;> omega

/-- C10: the reported min is the minimum of one hour (`Report.MinTime`'s
initialization `time.Hour`) and the smallest non-error duration, one hour
when there is none: runs whose non-error durations all exceed an hour, or
with no non-error outcome, report `minTime = 1h`. -/
theorem min_time_capped (totalRequests : Nat) (rs : List Result) :
    (runLoadTest totalRequests rs).minTime
      = match ((rs.filter fun r => !r.hasError).map Result.duration).min? with
        | none => hourNs
        | some d => min hourNs d := by
  rw [runLoadTest_minTime, foldl_min_eq_min?]
  rcases ((rs.filter fun r => !r.hasError).map Result.duration).min? with _ | d <;> rfl

end LoadGen
